import Mathlib

/-!
Verification of the retrieval pipeline of the intelligent document
processing repository: a shallow embedding of `agents/rag_system.py`,
`services/pinecone_service.py` and `config/config.py`, together with the
text-splitting behaviour of the `RecursiveCharacterTextSplitter` that
`RAGSystem.__init__` instantiates (literal separators
`["\n\n", "\n", " ", ""]`, `keep_separator=True`, `length_function=len`,
`strip_whitespace` on).

Texts are lists of characters, similarity scores are rationals, and the
external vector index is a list of `(id, metadata)` entries whose
similarity scoring against a query is abstracted as a score oracle from
entry id to score.
-/

namespace DocRag

/-! ## Python string primitives -/

/-- Whitespace test backing Python `str.strip`. -/
def isPySpace (c : Char) : Bool := c.isWhitespace

/-- Python `str.strip`: drop whitespace from both ends of the text. -/
def pyStrip (l : List Char) : List Char :=
  ((l.dropWhile isPySpace).reverse.dropWhile isPySpace).reverse

/-- First occurrence of `sep` in `text`, scanning left to right, returning
the part before it and the part after it.  This is the search performed by
`re.split` on a `re.escape`d separator. -/
def splitFirst (sep : List Char) : List Char → Option (List Char × List Char)
  | [] => none
  | c :: cs =>
    if sep.isPrefixOf (c :: cs) then some ([], (c :: cs).drop sep.length)
    else
      match splitFirst sep cs with
      | some (pre, post) => some (c :: pre, post)
      | none => none

/-- Python `re.split` on a literal separator: the pieces of `text` between
consecutive occurrences of `sep`.  `fuel` bounds the recursion and is
always supplied as at least `text.length` (each step strictly shortens the
remaining text when `sep` is non-empty). -/
def splitOnSeqF (sep : List Char) : Nat → List Char → List (List Char)
  | 0, text => [text]
  | fuel + 1, text =>
    match splitFirst sep text with
    | none => [text]
    | some (pre, post) => pre :: splitOnSeqF sep fuel post

def splitOnSeq (sep text : List Char) : List (List Char) :=
  splitOnSeqF sep text.length text

/-- Python `sep.join(pieces)` on character lists. -/
def joinSep (sep : List Char) : List (List Char) → List Char
  | [] => []
  | p :: ps => p ++ ps.flatMap (fun q => sep ++ q)

/-- Python `_split_text_with_regex` with `keep_separator=True` before the
non-empty filter: the separator is re-attached to the start of each piece
after the first. -/
def splitKeepRaw (sep : List Char) (text : List Char) : List (List Char) :=
  match splitOnSeq sep text with
  | [] => []
  | p :: ps => p :: ps.map (fun q => sep ++ q)

/-- Python `_split_text_with_regex` with `keep_separator=True`: splitting
with an empty separator is `list(text)`; in every case the empty pieces are
filtered out at the end. -/
def splitKeep (sep : List Char) (text : List Char) : List (List Char) :=
  if sep = [] then (text.map (fun c => [c])).filter (fun s => !s.isEmpty)
  else (splitKeepRaw sep text).filter (fun s => !s.isEmpty)

/-! ## The recursive character splitter, as configured by `RAGSystem` -/

/-- The separator-selection loop at the top of
`RecursiveCharacterTextSplitter._split_text`: the first separator that is
the empty string or occurs in the text is chosen; in the first case the
recursion list stays empty, in the second it is the remaining tail. -/
def chooseSepAux (text : List Char) : List (List Char) → Option (List Char × List (List Char))
  | [] => none
  | s :: rest =>
    if s = [] then some ([], [])
    else if (splitFirst s text).isSome then some (s, rest)
    else chooseSepAux text rest

/-- The chosen separator and the new separator list, with the Python
default `separator = separators[-1]` when the loop finds nothing. -/
def chooseSep (seps : List (List Char)) (text : List Char) : List Char × List (List Char) :=
  match chooseSepAux text seps with
  | some r => r
  | none => (seps.getLastD [], [])

/-- One segment of the splitter loop body: a maximal run of pieces shorter
than `chunk_size` (later merged), or a single over-long piece (later
recursed on or emitted as is). -/
inductive SplitItem where
  | good (run : List (List Char))
  | bad (s : List Char)
deriving DecidableEq

/-- The loop of `_split_text` over the pieces, recording merge runs and
over-long pieces in order; mirrors the `_good_splits` accumulator. -/
def partitionSplits (csize : Nat) : List (List Char) → List (List Char) → List SplitItem
  | acc, [] => if acc.isEmpty then [] else [SplitItem.good acc]
  | acc, s :: rest =>
    if s.length < csize then partitionSplits csize (acc ++ [s]) rest
    else
      (if acc.isEmpty then [] else [SplitItem.good acc]) ++
        SplitItem.bad s :: partitionSplits csize [] rest

/-- Python `TextSplitter._join_docs` with separator `""` (the separator
`_merge_splits` uses when `keep_separator` is set): concatenate, strip,
drop the document when the result is empty. -/
def joinDocs (docs : List (List Char)) : Option (List Char) :=
  let text := pyStrip docs.flatten
  if text.isEmpty then none else some text

/-- The pop-from-the-front while loop inside `TextSplitter._merge_splits`
(`total > chunk_overlap or (total + len > chunk_size and total > 0)`). -/
def popLoop (csize coverlap dlen : Nat) : List (List Char) → Nat → List (List Char) × Nat
  | [], total => ([], total)
  | c :: rest, total =>
    if coverlap < total ∨ (csize < total + dlen ∧ 0 < total) then
      popLoop csize coverlap dlen rest (total - c.length)
    else (c :: rest, total)

/-- Python `TextSplitter._merge_splits` (separator `""`): accumulate pieces
into `cur` while the running total stays within `chunk_size`; on overflow
emit the joined document and pop old pieces down to the overlap. -/
def mergeLoop (csize coverlap : Nat) :
    List (List Char) → List (List Char) → Nat → List (List Char) → List (List Char)
  | docs, cur, _total, [] => docs ++ (joinDocs cur).toList
  | docs, cur, total, d :: ds =>
    if csize < total + d.length then
      match cur with
      | [] => mergeLoop csize coverlap docs [d] d.length ds
      | c :: cs =>
        let docs2 := docs ++ (joinDocs (c :: cs)).toList
        let p := popLoop csize coverlap d.length (c :: cs) total
        mergeLoop csize coverlap docs2 (p.1 ++ [d]) (p.2 + d.length) ds
    else mergeLoop csize coverlap docs (cur ++ [d]) (total + d.length) ds

def mergeSplits (csize coverlap : Nat) (splits : List (List Char)) : List (List Char) :=
  mergeLoop csize coverlap [] [] 0 splits

/-- Python `RecursiveCharacterTextSplitter._split_text` with literal
separators and `keep_separator=True`.  `fuel` bounds the recursion depth;
each recursive call strictly shortens the separator list, so any fuel
above the list length is enough (`splitText` below supplies it). -/
def splitTextFuel (csize coverlap : Nat) : Nat → List (List Char) → List Char → List (List Char)
  | 0, _, _ => []
  | fuel + 1, seps, text =>
    (partitionSplits csize [] (splitKeep (chooseSep seps text).1 text)).flatMap fun item =>
      match item with
      | SplitItem.good run => mergeSplits csize coverlap run
      | SplitItem.bad s =>
        if (chooseSep seps text).2.isEmpty then [s]
        else splitTextFuel csize coverlap fuel (chooseSep seps text).2 s

/-- The separator list `RAGSystem.__init__` passes to the splitter. -/
def ragSeparators : List (List Char) := [['\n', '\n'], ['\n'], [' '], []]

/-- Python `RecursiveCharacterTextSplitter.split_text` as instantiated by
`RAGSystem.__init__` (`chunk_size`, `chunk_overlap` from `DocumentConfig`,
defaults 1000 and 200). -/
def splitText (csize coverlap : Nat) (text : List Char) : List (List Char) :=
  splitTextFuel csize coverlap (ragSeparators.length + 1) ragSeparators text

/-- Python `RAGSystem._split_text`: the chunk texts paired with the
`chunk_index` metadata of the produced `Document` objects. -/
def rag_split_text (csize coverlap : Nat) (text : String) : List (Nat × String) :=
  ((splitText csize coverlap text.data).map String.mk).enum

/-- The shape of the separator lists the splitter is run with: a list of
non-empty separators followed by the final empty-string separator. -/
def SepsOk (seps : List (List Char)) : Prop :=
  ∃ l, seps = l ++ [[]] ∧ ∀ s ∈ l, s ≠ []

/-! ## Configuration (`config.py`) and construction (`RAGSystem.__init__`) -/

/-- The `chunk_overlap > chunk_size` guard in `TextSplitter.__init__`, the
constructor run by `RecursiveCharacterTextSplitter(...)` inside
`RAGSystem.__init__`; it raises `ValueError` exactly when the overlap is
strictly larger.  Neither `RAGSystem.__init__` nor `DocumentConfig` in
`config.py` adds any further validation of `chunk_size`/`chunk_overlap`. -/
def text_splitter_init (chunk_size chunk_overlap : Nat) : Except String (Nat × Nat) :=
  if chunk_size < chunk_overlap then
    Except.error "ValueError: got a larger chunk overlap than chunk size"
  else Except.ok (chunk_size, chunk_overlap)

/-! ## Data model of the vector index and of search results -/

/-- The metadata fields the retrieval code reads from an index entry
(accessed in Python through `metadata.get(...)`, hence optional). -/
structure Metadata where
  document_id : Option String := none
  chunk_index : Option Nat := none
  chunk_count : Option Nat := none
  text : Option String := none
  chunk_text : Option String := none
  page_content : Option String := none
deriving DecidableEq, Repr

/-- An entry of the external Pinecone index.  The stored vector is elided:
similarity scoring against a query is abstracted as a score oracle in
`pinecone_query`. -/
structure IndexEntry where
  id : String
  metadata : Metadata
deriving DecidableEq, Repr

/-- A match returned by `index.query`, as consumed by the callers
(`chunk.get("id")`, `chunk.get("score")`, `chunk.get("metadata")`). -/
structure RawMatch where
  id : String
  score : ℚ
  metadata : Metadata
deriving DecidableEq, Repr

/-- A chunk dict normalized by `search_documents`. -/
structure NormChunk where
  id : String
  score : ℚ
  content : String
  metadata : Metadata
deriving DecidableEq, Repr

/-- A chunk entry of a document group built by
`_group_chunks_by_document`. -/
structure GroupChunk where
  chunk_id : String
  content : String
  score : ℚ
  metadata : Metadata
deriving DecidableEq, Repr

/-- A per-document result group. -/
structure DocGroup where
  document_id : String
  metadata : Metadata
  chunks : List GroupChunk
deriving DecidableEq, Repr

/-- Python `str.strip` on a string value. -/
def pyStripStr (s : String) : String := String.mk (pyStrip s.data)

/-- Python `a or b` for an optional string `a`: `None` and `""` are
falsy. -/
def pyOrStr : Option String → String → String
  | some s, d => if s = "" then d else s
  | none, d => d

/-- Python `sep.join(parts)` on strings. -/
def pyJoinStr (sep : String) : List String → String
  | [] => ""
  | [p] => p
  | p :: ps => p ++ sep ++ pyJoinStr sep ps

/-- Python substring containment `d in s`. -/
def pyInStr (d s : String) : Bool :=
  d.data.isEmpty || (splitFirst d.data s.data).isSome

/-! ## The query path (`search_documents`, grouping, context) -/

/-- Model of the success path of `PineconeService.search_similar`:
`index.query` returns the entries whose metadata passes the equality
filter (`filter` selects exactly the entries whose
`document_id` metadata equals `d`), scored by the external index ---
abstracted as the oracle `sim` from entry id to cosine score --- ordered
by descending score and truncated to `top_k`. -/
def pinecone_query (st : List IndexEntry) (sim : String → ℚ) (top_k : Nat)
    (filter : Option String) : List RawMatch :=
  (List.insertionSort (fun a b : RawMatch => b.score ≤ a.score)
    ((st.filter (fun e =>
      match filter with
      | none => true
      | some d => e.metadata.document_id == some d)).map
        (fun e => ⟨e.id, sim e.id, e.metadata⟩))).take top_k

/-- The chunk-normalization loop of `search_documents`: content is
`metadata.get("text", "")`. -/
def normalizeChunk (m : RawMatch) : NormChunk :=
  { id := m.id, score := m.score, content := m.metadata.text.getD "", metadata := m.metadata }

/-- Python `sorted(normalized_chunks, key=lambda x: x["score"],
reverse=True)`: a stable descending sort by score. -/
def sortByScoreDesc (l : List NormChunk) : List NormChunk :=
  List.insertionSort (fun a b : NormChunk => b.score ≤ a.score) l

/-- The threshold filter of `search_documents`
(`c["score"] >= similarity_threshold`) followed by the fallback: if
nothing survives, take the top 3 candidates by raw score. -/
def surviving_chunks (threshold : ℚ) (ms : List RawMatch) : List NormChunk :=
  if ((ms.map normalizeChunk).filter (fun c => threshold ≤ c.score)).isEmpty then
    (sortByScoreDesc (ms.map normalizeChunk)).take 3
  else (ms.map normalizeChunk).filter (fun c => threshold ≤ c.score)

/-- The group key of a chunk in `_group_chunks_by_document`:
`metadata.get("document_id") or chunk.get("id", "unknown")`. -/
def docKey (c : NormChunk) : String := pyOrStr c.metadata.document_id c.id

/-- The content fallback chain of `_group_chunks_by_document`
(`chunk.get("content") or metadata.get("text") or
metadata.get("chunk_text") or metadata.get("page_content") or ""`),
stripped. -/
def chunkContent (c : NormChunk) : String :=
  pyStripStr (pyOrStr (some c.content)
    (pyOrStr c.metadata.text
      (pyOrStr c.metadata.chunk_text (pyOrStr c.metadata.page_content ""))))

/-- The chunk record appended to a group by
`_group_chunks_by_document`. -/
def mkGroupChunk (c : NormChunk) : GroupChunk :=
  { chunk_id := c.id, content := chunkContent c, score := c.score, metadata := c.metadata }

/-- Insert a chunk into the insertion-ordered group map (the Python dict
`document_groups` keyed by document id). -/
def insertChunk (did : String) (gc : GroupChunk) (md : Metadata) :
    List DocGroup → List DocGroup
  | [] => [⟨did, md, [gc]⟩]
  | g :: gs =>
    if g.document_id = did then ⟨g.document_id, g.metadata, g.chunks ++ [gc]⟩ :: gs
    else g :: insertChunk did gc md gs

/-- The grouping loop of `_group_chunks_by_document`. -/
def groupPass (chunks : List NormChunk) : List DocGroup :=
  chunks.foldl (fun groups c => insertChunk (docKey c) (mkGroupChunk c) c.metadata groups) []

/-- Python `list.sort(key=lambda x: x["score"], reverse=True)`: stable
descending in-place sort of a group's chunks. -/
def sortChunksDesc (l : List GroupChunk) : List GroupChunk :=
  List.insertionSort (fun a b : GroupChunk => b.score ≤ a.score) l

/-- Python `RAGSystem._group_chunks_by_document`: group chunks by document id in
insertion order, then sort each group's chunks by descending score. -/
def group_chunks_by_document (chunks : List NormChunk) : List DocGroup :=
  (groupPass chunks).map (fun g => ⟨g.document_id, g.metadata, sortChunksDesc g.chunks⟩)

/-- The success payload of `RAGSystem.search_documents`. -/
structure SearchPayload where
  query : String
  total_results : Nat
  document_results : Nat
  results : List DocGroup
  similarity_threshold : ℚ
  context_text : String
deriving DecidableEq, Repr

/-- Python `RAGSystem.search_documents` success path, as a function of the raw matches
`ms` that the vector index returned for the query embedding. -/
def search_documents (query : String) (threshold : ℚ) (ms : List RawMatch) :
    SearchPayload :=
  let survivors := surviving_chunks threshold ms
  let groups := group_chunks_by_document survivors
  { query := query
    total_results := survivors.length
    document_results := groups.length
    results := groups
    similarity_threshold := threshold
    context_text :=
      pyStripStr (pyJoinStr "\n" ((survivors.filter (fun c => c.content != "")).map
        (fun c => c.content))) }

/-- The context-chunk collection loop of `answer_question`: the chunk
contents of all document groups, in group order and rank order within
each group. -/
def collect_context_chunks (results : List DocGroup) : List String :=
  results.flatMap (fun g => g.chunks.map (fun c => c.content))

/-- Python slicing `context[:n]`: the first `n` characters. -/
def pySlice (s : String) (n : Nat) : String := String.mk (s.data.take n)

/-- The context assembly of `answer_question`: join the chunk contents
with the fixed `"\n\n"` separator; when the result is longer than
`max_context_length`, truncate to `max_context_length` characters and
append the `"..."` truncation marker. -/
def assemble_context (max_context_length : Nat) (contents : List String) : String :=
  let context := pyJoinStr "\n\n" contents
  if max_context_length < context.length then
    pySlice context max_context_length ++ "..."
  else context

/-- The group-selection loop of `get_document_context`: the chunks of the
first document group whose id contains `document_id` as a substring;
`context_chunks` stays empty when no group matched. -/
def selectContextChunks (document_id : String) : List DocGroup → List GroupChunk
  | [] => []
  | g :: gs =>
    if pyInStr document_id g.document_id then g.chunks
    else selectContextChunks document_id gs

/-- The success payload of `RAGSystem.get_document_context`. -/
structure ContextPayload where
  document_id : String
  query : String
  context_chunks : List GroupChunk
  chunk_count : Nat
deriving DecidableEq, Repr

/-- Python `RAGSystem.get_document_context`: a `search_documents` call scoped by
the equality filter `{"document_id": document_id}`, then selection of the
first group whose id contains `document_id` as a substring (the
early-return branch when there are no result groups returns an empty
chunk list). -/
def get_document_context (st : List IndexEntry) (sim : String → ℚ) (threshold : ℚ)
    (document_id query : String) (top_k : Nat) : ContextPayload :=
  let ms := pinecone_query st sim top_k (some document_id)
  let p := search_documents query threshold ms
  if p.results.isEmpty then ⟨document_id, query, [], 0⟩
  else
    let cc := selectContextChunks document_id p.results
    ⟨document_id, query, cc, cc.length⟩

/-! ## Index lifecycle (`index_document`, update, delete, hybrid) -/

/-- A value of a Python result dict. -/
inductive PyVal where
  | str (s : String)
  | nat (n : Nat)
  | rat (q : ℚ)
  | bool (b : Bool)
deriving DecidableEq, Repr

/-- A Python result dict, as an association list from keys to values. -/
abbrev PyDict := List (String × PyVal)

/-- The vector-building loop of `index_document`: one vector per chunk
with id `document_id + "_chunk_" + i` and metadata carrying
`document_id`, `chunk_index`, `chunk_count` and the chunk text (the
caller-supplied document metadata is merged in after these keys and is
not modelled). -/
def mkVectors (document_id : String) (chunks : List String) : List IndexEntry :=
  chunks.enum.map (fun p =>
    { id := document_id ++ "_chunk_" ++ toString p.1
      metadata :=
        { document_id := some document_id
          chunk_index := some p.1
          chunk_count := some chunks.length
          text := some p.2 } })

/-- Pinecone `index.upsert` for a single vector: an existing id is
overwritten, a new id is appended. -/
def upsertOne (st : List IndexEntry) (e : IndexEntry) : List IndexEntry :=
  if st.any (fun x => x.id == e.id) then
    st.map (fun x => if x.id == e.id then e else x)
  else st ++ [e]

/-- The batch upsert of `PineconeService.upsert_vectors`. -/
def upsert_vectors (st : List IndexEntry) (vs : List IndexEntry) : List IndexEntry :=
  vs.foldl upsertOne st

/-- Python `RAGSystem.index_document`: split, embed (elided), build the vectors,
upsert, report.  `upsert_ok` is the Boolean result of
`PineconeService.upsert_vectors` --- `False` when the upsert failed and
nothing was written (that method catches its own exceptions); the Python
caller discards this result, reports success either way, and its payload
carries a `chunk_count` but no `indexed_count`. -/
def index_document (csize coverlap : Nat) (upsert_ok : Bool) (st : List IndexEntry)
    (document_id text_content : String) : List IndexEntry × PyDict :=
  let chunks := (splitText csize coverlap text_content.data).map String.mk
  let vectors := mkVectors document_id chunks
  let st2 := if upsert_ok then upsert_vectors st vectors else st
  (st2,
    [("success", PyVal.bool true),
     ("document_id", PyVal.str document_id),
     ("chunk_count", PyVal.nat chunks.length),
     ("message", PyVal.str ("Document " ++ document_id ++ " indexed successfully"))])

/-- Python `PineconeService.delete_document`: `index.delete(ids=[id])`, removing
the entry with that id and returning `True`. -/
def pinecone_delete_document (st : List IndexEntry) (document_id : String) :
    List IndexEntry × Bool :=
  (st.filter (fun e => e.id != document_id), true)

/-- Python subscripting a `str` value with a string key, as in
`chunk["document_id"]` where `chunk` is a `str`: raises `TypeError`. -/
def pyStrSubscript (s key : String) : Except String String :=
  Except.error "TypeError: string indices must be integers"

/-- The deletion loop of `RAGSystem._delete_document_chunks`.
`search_similar` returns the dict with keys `"success"` and `"results"`;
`for chunk in search_results` iterates that dict, yielding its keys, and
the body evaluates `chunk["document_id"]` on those string keys. -/
def delete_chunks_loop (st : List IndexEntry) (acc : Nat) :
    List String → Except String (List IndexEntry × Nat)
  | [] => Except.ok (st, acc)
  | key :: rest =>
    match pyStrSubscript key "document_id" with
    | Except.error e => Except.error e
    | Except.ok chunk_id =>
      let p := pinecone_delete_document st chunk_id
      delete_chunks_loop p.1 (if p.2 then acc + 1 else acc) rest

/-- Python `RAGSystem._delete_document_chunks`: the dummy-vector search returns
the dict payload, the loop over it raises `TypeError` on the first key,
and the `except` clause returns 0 with the index untouched. -/
def delete_document_chunks (st : List IndexEntry) (document_id : String) :
    List IndexEntry × Nat :=
  match delete_chunks_loop st 0 ["success", "results"] with
  | Except.ok r => r
  | Except.error _ => (st, 0)

/-- Python `RAGSystem.delete_document_index`. -/
def delete_document_index (st : List IndexEntry) (document_id : String) :
    List IndexEntry × PyDict :=
  let p := delete_document_chunks st document_id
  (p.1,
    [("success", PyVal.bool true),
     ("document_id", PyVal.str document_id),
     ("deleted_chunks", PyVal.nat p.2)])

/-- Python `RAGSystem.update_document_index`: delete the existing chunks of the
document, then re-index the new content. -/
def update_document_index (csize coverlap : Nat) (upsert_ok : Bool)
    (st : List IndexEntry) (document_id text_content : String) :
    List IndexEntry × PyDict :=
  let p := delete_document_chunks st document_id
  index_document csize coverlap upsert_ok p.1 document_id text_content

/-- The attribute lookup `self.pinecone_service.hybrid_search` performed
by `RAGSystem.hybrid_search`: `pinecone_service.py` defines no method of
that name (only `OpenSearchService` in `aws_opensearch.py` does), so the
lookup finds nothing and Python raises `AttributeError`. -/
def pineconeService_hybrid_search : Option (String → Nat → ℚ → List RawMatch) := none

/-- Python `RAGSystem.hybrid_search`: on the success path the service results
would be threshold-filtered, grouped, and annotated with
`search_type="hybrid"` and the weight; the `AttributeError` from the
missing `PineconeService.hybrid_search` is caught by the `except` clause,
which returns the error payload instead. -/
def hybrid_search (threshold : ℚ) (query : String) (top_k : Nat) (weight : ℚ) : PyDict :=
  match pineconeService_hybrid_search with
  | none =>
    [("error", PyVal.str "AttributeError: PineconeService object has no attribute hybrid_search")]
  | some f =>
    let results := f query top_k weight
    let filtered := results.filter (fun r => threshold ≤ r.score)
    let groups := group_chunks_by_document (filtered.map normalizeChunk)
    [("success", PyVal.bool true),
     ("query", PyVal.str query),
     ("total_results", PyVal.nat filtered.length),
     ("document_results", PyVal.nat groups.length),
     ("search_type", PyVal.str "hybrid"),
     ("vector_weight", PyVal.rat weight)]

/-- A concrete index state: document `d` indexed with two chunks, as
`index_document` produces for a text of about 1,200 characters under the
default configuration (the short texts here stand in for the two chunk
contents). -/
def staleState : List IndexEntry :=
  [{ id := "d_chunk_0"
     metadata := { document_id := some "d", chunk_index := some 0,
                   chunk_count := some 2, text := some "OLD ALPHA" } },
   { id := "d_chunk_1"
     metadata := { document_id := some "d", chunk_index := some 1,
                   chunk_count := some 2, text := some "OLD BETA" } }]

/-- Claim C10 as stated: for some pair of indexed documents with one id a
proper substring of the other, the document-scoped context lookup can
return chunks belonging to the other document. -/
def Claim10 : Prop :=
  ∃ (st : List IndexEntry) (sim : String → ℚ) (threshold : ℚ)
    (d1 d2 q : String) (top_k : Nat),
    d1 ≠ d2 ∧ pyInStr d1 d2 = true ∧
    (∃ e ∈ st, e.metadata.document_id = some d1) ∧
    (∃ e ∈ st, e.metadata.document_id = some d2) ∧
    ∃ c ∈ (get_document_context st sim threshold d1 q top_k).context_chunks,
      c.metadata.document_id = some d2

/-- A concrete single-match index response whose score lies below the
default similarity threshold. -/
def c1DemoMs : List RawMatch :=
  [{ id := "d_chunk_0", score := 0,
     metadata := { document_id := some "d", text := some "hello" } }]

/-- Two concrete normalized chunks of one document, listed in ascending
score order. -/
def c8DemoChunks : List NormChunk :=
  [{ id := "d_chunk_0", score := 1, content := "a",
     metadata := { document_id := some "d", text := some "a" } },
   { id := "d_chunk_1", score := 2, content := "b",
     metadata := { document_id := some "d", text := some "b" } }]

/-- A concrete ranked result group whose joined context exceeds a small
context budget. -/
def c9DemoGroups : List DocGroup :=
  [{ document_id := "d", metadata := {},
     chunks := [{ chunk_id := "c1", content := "abcd", score := 1, metadata := {} },
                { chunk_id := "c2", content := "ef", score := 0, metadata := {} }] }]

/-- A concrete one-document index state for the scoped-context witness. -/
def c10DemoState : List IndexEntry :=
  [{ id := "doc1_chunk_0",
     metadata := { document_id := some "doc1", chunk_index := some 0,
                   chunk_count := some 1, text := some "alpha" } }]

/-! ## Basic facts about the split/join machinery -/

theorem splitFirst_eq (sep : List Char) :
    ∀ (text pre post : List Char), splitFirst sep text = some (pre, post) →
      text = pre ++ sep ++ post := by
  intro text
  induction text with
  | nil => intro pre post h; simp [splitFirst] at h
  | cons c cs ih =>
    intro pre post h
    by_cases hp : sep.isPrefixOf (c :: cs)
    · rw [splitFirst, if_pos hp] at h
      obtain ⟨t, ht⟩ := List.isPrefixOf_iff_prefix.mp hp
      injection h with h1
      injection h1 with hpre hpost
      subst hpre
      rw [← ht, List.drop_left] at hpost
      simp [← ht, ← hpost]
    · rw [splitFirst, if_neg hp] at h
      cases hm : splitFirst sep cs with
      | none => rw [hm] at h; exact absurd h (by simp)
      | some r =>
        obtain ⟨pre1, post1⟩ := r
        rw [hm] at h
        injection h with h1
        injection h1 with hpre hpost
        subst hpre
        subst hpost
        have hcs := ih pre1 post1 hm
        simp [hcs]

theorem splitFirst_post_lt (sep : List Char) (hs : sep ≠ [])
    (text pre post : List Char) (h : splitFirst sep text = some (pre, post)) :
    post.length < text.length := by
  have he := splitFirst_eq sep text pre post h
  have : text.length = pre.length + sep.length + post.length := by
    simp [he]; ring
  have hsl : 0 < sep.length := List.length_pos.mpr hs
  omega

theorem splitOnSeqF_ne_nil (sep : List Char) (fuel : Nat) (text : List Char) :
    splitOnSeqF sep fuel text ≠ [] := by
  cases fuel with
  | zero => simp [splitOnSeqF]
  | succ n =>
    rw [splitOnSeqF]
    cases splitFirst sep text with
    | none => simp
    | some r => obtain ⟨pre, post⟩ := r; simp

theorem joinSep_cons_cons (sep p q : List Char) (ps : List (List Char)) :
    joinSep sep (p :: q :: ps) = p ++ sep ++ joinSep sep (q :: ps) := by
  simp [joinSep]

theorem splitOnSeqF_join (sep : List Char) (hs : sep ≠ []) :
    ∀ (fuel : Nat) (text : List Char), text.length ≤ fuel →
      joinSep sep (splitOnSeqF sep fuel text) = text := by
  intro fuel
  induction fuel with
  | zero => intro text _; simp [splitOnSeqF, joinSep]
  | succ n ih =>
    intro text hlen
    rw [splitOnSeqF]
    cases hm : splitFirst sep text with
    | none => simp [joinSep]
    | some r =>
      obtain ⟨pre, post⟩ := r
      dsimp only
      have hpost : post.length < text.length := splitFirst_post_lt sep hs text pre post hm
      have hrec := ih post (by omega)
      cases hq : splitOnSeqF sep n post with
      | nil => exact absurd hq (splitOnSeqF_ne_nil sep n post)
      | cons q qs =>
        rw [hq] at hrec
        rw [joinSep_cons_cons, hrec]
        exact (splitFirst_eq sep text pre post hm).symm

theorem splitOnSeq_join (sep : List Char) (hs : sep ≠ []) (text : List Char) :
    joinSep sep (splitOnSeq sep text) = text :=
  splitOnSeqF_join sep hs text.length text le_rfl

theorem flatten_filter_ne_nil (l : List (List Char)) :
    (l.filter (fun s => !s.isEmpty)).flatten = l.flatten := by
  induction l with
  | nil => rfl
  | cons s rest ih =>
    by_cases h : s.isEmpty
    · have hnil : s = [] := by cases s <;> simp_all [List.isEmpty]
      simp [List.filter, h, hnil, ih]
    · simp [List.filter, h, ih]

theorem splitKeepRaw_flatten (sep : List Char) (hs : sep ≠ []) (text : List Char) :
    (splitKeepRaw sep text).flatten = text := by
  rw [splitKeepRaw]
  cases hq : splitOnSeq sep text with
  | nil => exact absurd hq (splitOnSeqF_ne_nil sep text.length text)
  | cons p ps =>
    have hj := splitOnSeq_join sep hs text
    rw [hq] at hj
    rw [← hj]
    simp [joinSep, List.flatMap_def]

theorem splitKeep_flatten (sep : List Char) (text : List Char) :
    (splitKeep sep text).flatten = text := by
  rw [splitKeep]
  by_cases h : sep = []
  · rw [if_pos h, flatten_filter_ne_nil]
    induction text with
    | nil => rfl
    | cons c cs ih => simp_all
  · rw [if_neg h, flatten_filter_ne_nil]
    exact splitKeepRaw_flatten sep h text

theorem splitKeep_mem_ne_nil (sep text : List Char) :
    ∀ s ∈ splitKeep sep text, s ≠ [] := by
  intro s hmem
  rw [splitKeep] at hmem
  by_cases h : sep = []
  · rw [if_pos h] at hmem
    have := List.of_mem_filter hmem
    cases s <;> simp_all [List.isEmpty]
  · rw [if_neg h] at hmem
    have := List.of_mem_filter hmem
    cases s <;> simp_all [List.isEmpty]

/-! ## Behaviour of the splitter on texts no longer than `chunk_size` -/

theorem mergeLoop_small (csize coverlap : Nat) :
    ∀ (splits cur docs : List (List Char)) (total : Nat),
      total = (cur.map List.length).sum →
      total + (splits.map List.length).sum ≤ csize →
      mergeLoop csize coverlap docs cur total splits =
        docs ++ (joinDocs (cur ++ splits)).toList := by
  intro splits
  induction splits with
  | nil => intro cur docs total _ _; simp [mergeLoop]
  | cons d ds ih =>
    intro cur docs total htot hle
    have hsum : (List.map List.length (d :: ds)).sum = d.length + (ds.map List.length).sum := by
      simp
    have hnd : ¬ csize < total + d.length := by omega
    rw [mergeLoop.eq_def]
    simp only [if_neg hnd]
    rw [ih (cur ++ [d]) docs (total + d.length) (by simp [htot]) (by omega)]
    simp

theorem mergeSplits_small (csize coverlap : Nat) (splits : List (List Char))
    (hle : (splits.map List.length).sum ≤ csize) :
    mergeSplits csize coverlap splits = (joinDocs splits).toList := by
  rw [mergeSplits, mergeLoop_small csize coverlap splits [] [] 0 (by simp) (by omega)]
  simp

theorem partitionSplits_allGood (csize : Nat) :
    ∀ (splits acc : List (List Char)), (∀ s ∈ splits, s.length < csize) →
      partitionSplits csize acc splits =
        if (acc ++ splits).isEmpty then [] else [SplitItem.good (acc ++ splits)] := by
  intro splits
  induction splits with
  | nil => intro acc _; simp [partitionSplits]
  | cons s rest ih =>
    intro acc h
    rw [partitionSplits, if_pos (h s (by simp))]
    rw [ih (acc ++ [s]) (fun x hx => h x (by simp [hx]))]
    simp

theorem mem_length_le_flatten (l : List (List Char)) (x : List Char) (hx : x ∈ l) :
    x.length ≤ l.flatten.length := by
  induction l with
  | nil => simp at hx
  | cons a rest ih =>
    rcases List.mem_cons.mp hx with h | h
    · subst h; simp
    · have := ih h
      simp only [List.flatten_cons, List.length_append]
      omega

theorem flatten_nil_of_ne_nil (l : List (List Char)) (hne : ∀ s ∈ l, s ≠ [])
    (hfl : l.flatten = []) : l = [] := by
  cases l with
  | nil => rfl
  | cons a rest =>
    have ha : a ≠ [] := hne a (by simp)
    simp only [List.flatten_cons, List.append_eq_nil] at hfl
    exact absurd hfl.1 ha

theorem splits_eq_single (l : List (List Char)) (x : List Char)
    (hne : ∀ s ∈ l, s ≠ []) (hx : x ∈ l) (hcs : l.flatten.length ≤ x.length) :
    l = [x] := by
  cases l with
  | nil => simp at hx
  | cons a rest =>
    rcases List.mem_cons.mp hx with h | h
    · subst h
      have hr : rest.flatten.length = 0 := by
        simp only [List.flatten_cons, List.length_append] at hcs
        omega
      have : rest = [] :=
        flatten_nil_of_ne_nil rest (fun s hs => hne s (by simp [hs]))
          (List.eq_nil_of_length_eq_zero hr)
      simp [this]
    · exfalso
      have hxr : x.length ≤ rest.flatten.length := mem_length_le_flatten rest x h
      have ha : a ≠ [] := hne a (by simp)
      have hal : 0 < a.length := List.length_pos.mpr ha
      simp only [List.flatten_cons, List.length_append] at hcs
      omega

theorem chooseSepAux_ok (text : List Char) :
    ∀ (l : List (List Char)), (∀ s ∈ l, s ≠ []) →
      chooseSepAux text (l ++ [[]]) = some ([], []) ∨
      ∃ s rest, chooseSepAux text (l ++ [[]]) = some (s, rest) ∧ s ≠ [] ∧
        (splitFirst s text).isSome = true ∧ SepsOk rest ∧
        rest.length < (l ++ [[]]).length := by
  intro l
  induction l with
  | nil =>
    intro _
    left
    simp [chooseSepAux]
  | cons s l2 ih =>
    intro h
    have hs : s ≠ [] := h s (by simp)
    by_cases hocc : (splitFirst s text).isSome = true
    · right
      refine ⟨s, l2 ++ [[]], ?_, hs, hocc, ⟨l2, rfl, fun x hx => h x (by simp [hx])⟩, by simp⟩
      simp [chooseSepAux, hs, hocc]
    · have := ih (fun x hx => h x (by simp [hx]))
      have hstep : chooseSepAux text ((s :: l2) ++ [[]]) = chooseSepAux text (l2 ++ [[]]) := by
        simp [chooseSepAux, hs, hocc]
      rcases this with hcase | ⟨s2, rest, hr, hs2, hocc2, hso, hlen⟩
      · left; rw [hstep, hcase]
      · right
        exact ⟨s2, rest, by rw [hstep, hr], hs2, hocc2, hso, by simp at hlen ⊢; omega⟩

theorem splitKeep_good_result (csize coverlap : Nat) (sep text : List Char)
    (g : SplitItem → List (List Char))
    (hg : ∀ run, g (SplitItem.good run) = mergeSplits csize coverlap run)
    (hall : ∀ s ∈ splitKeep sep text, s.length < csize)
    (hlen : text.length ≤ csize) :
    (partitionSplits csize [] (splitKeep sep text)).flatMap g =
      if (pyStrip text).isEmpty then [] else [pyStrip text] := by
  rw [partitionSplits_allGood csize (splitKeep sep text) [] hall]
  by_cases hsp : splitKeep sep text = []
  · have htext : text = [] := by
      have := splitKeep_flatten sep text
      rw [hsp] at this
      simpa using this.symm
    subst htext
    simp [hsp, pyStrip, joinDocs]
  · rw [if_neg (by simpa [List.isEmpty_iff] using hsp)]
    have hsum : ((splitKeep sep text).map List.length).sum ≤ csize := by
      rw [← List.length_flatten, splitKeep_flatten sep text]
      exact hlen
    simp only [List.nil_append, List.flatMap_cons, List.flatMap_nil, List.append_nil, hg]
    rw [mergeSplits_small csize coverlap _ hsum]
    rw [joinDocs, splitKeep_flatten sep text]
    by_cases hst : (pyStrip text).isEmpty
    · simp [hst]
    · simp [hst]

theorem splitTextFuel_small (csize coverlap : Nat) (hc : 1 < csize) :
    ∀ (fuel : Nat) (seps : List (List Char)) (text : List Char),
      SepsOk seps → seps.length < fuel → text.length ≤ csize →
      splitTextFuel csize coverlap fuel seps text =
        if (pyStrip text).isEmpty then [] else [pyStrip text] := by
  intro fuel
  induction fuel with
  | zero => intro seps text _ h _; omega
  | succ f ih =>
    intro seps text hok hflen htlen
    obtain ⟨l, hl, hlne⟩ := hok
    subst hl
    rw [splitTextFuel]
    rcases chooseSepAux_ok text l hlne with hcase | ⟨s, rest, hr, hs, hocc, hso, hlen⟩
    · have hcs : chooseSep (l ++ [[]]) text = ([], []) := by
        rw [chooseSep, hcase]
      simp only [hcs, List.isEmpty_nil, if_true]
      have hall : ∀ x ∈ splitKeep [] text, x.length < csize := by
        intro x hx
        rw [splitKeep, if_pos rfl] at hx
        have hx2 := List.mem_of_mem_filter hx
        obtain ⟨c, _, hcx⟩ := List.mem_map.mp hx2
        rw [← hcx]
        simpa using hc
      exact splitKeep_good_result csize coverlap [] text _ (fun run => rfl) hall htlen
    · have hcs : chooseSep (l ++ [[]]) text = (s, rest) := by
        rw [chooseSep, hr]
      have hrne : rest.isEmpty = false := by
        obtain ⟨l2, hl2, -⟩ := hso
        subst hl2
        cases l2 <;> simp
      simp only [hcs, hrne, Bool.false_eq_true, if_false]
      by_cases hall : ∀ x ∈ splitKeep s text, x.length < csize
      · exact splitKeep_good_result csize coverlap s text _ (fun run => rfl) hall htlen
      · push_neg at hall
        obtain ⟨x, hxmem, hxlen⟩ := hall
        have hflat := splitKeep_flatten s text
        have hxtext : (splitKeep s text).flatten.length ≤ x.length := by
          rw [hflat]; omega
        have hsingle : splitKeep s text = [x] :=
          splits_eq_single (splitKeep s text) x (splitKeep_mem_ne_nil s text) hxmem hxtext
        have hxeq : x = text := by
          rw [hsingle] at hflat
          simpa using hflat
        subst hxeq
        rw [hsingle]
        have hbad : ¬ x.length < csize := by omega
        rw [partitionSplits, if_neg hbad]
        simp only [List.isEmpty_nil, if_true, List.nil_append, partitionSplits,
          List.flatMap_cons, List.flatMap_nil, List.append_nil]
        have hrest : rest.length < f := by
          simp at hlen hflen
          omega
        exact ih rest x hso hrest htlen

theorem sepsOk_ragSeparators : SepsOk ragSeparators :=
  ⟨[['\n', '\n'], ['\n'], [' ']], rfl, by decide⟩

theorem splitText_small (csize coverlap : Nat) (hc : 1 < csize) (text : List Char)
    (htlen : text.length ≤ csize) :
    splitText csize coverlap text =
      if (pyStrip text).isEmpty then [] else [pyStrip text] :=
  splitTextFuel_small csize coverlap hc (ragSeparators.length + 1) ragSeparators text
    sepsOk_ragSeparators (by simp) htlen

/-! ## Grouping and query-path facts -/

theorem insertChunk_ne_nil (did : String) (gc : GroupChunk) (md : Metadata) :
    ∀ gs, insertChunk did gc md gs ≠ [] := by
  intro gs
  cases gs with
  | nil => simp [insertChunk]
  | cons g rest =>
    rw [insertChunk]
    by_cases h : g.document_id = did <;> simp [h]

theorem foldl_insertChunk_ne_nil :
    ∀ (l : List NormChunk) (gs : List DocGroup), gs ≠ [] →
      l.foldl (fun groups c => insertChunk (docKey c) (mkGroupChunk c) c.metadata groups) gs ≠ [] := by
  intro l
  induction l with
  | nil => intro gs h; simpa using h
  | cons c cs ih =>
    intro gs _
    rw [List.foldl_cons]
    exact ih _ (insertChunk_ne_nil _ _ _ gs)

theorem group_chunks_by_document_ne_nil (l : List NormChunk) (h : l ≠ []) :
    group_chunks_by_document l ≠ [] := by
  rw [group_chunks_by_document]
  cases l with
  | nil => exact absurd rfl h
  | cons c cs =>
    rw [groupPass, List.foldl_cons]
    have hne := foldl_insertChunk_ne_nil cs
      (insertChunk (docKey c) (mkGroupChunk c) c.metadata []) (insertChunk_ne_nil _ _ _ [])
    simpa using hne

theorem insertChunk_chunks_all (Q : GroupChunk → Prop) (did : String) (gc : GroupChunk)
    (md : Metadata) :
    ∀ gs, (∀ g ∈ gs, ∀ x ∈ g.chunks, Q x) → Q gc →
      ∀ g ∈ insertChunk did gc md gs, ∀ x ∈ g.chunks, Q x := by
  intro gs
  induction gs with
  | nil =>
    intro _ hq g hg x hx
    rw [insertChunk] at hg
    rw [List.mem_singleton] at hg
    subst hg
    rw [List.mem_singleton.mp hx]
    exact hq
  | cons g0 gs ih =>
    intro hgs hq g hg x hx
    rw [insertChunk] at hg
    by_cases h : g0.document_id = did
    · rw [if_pos h] at hg
      rcases List.mem_cons.mp hg with hg1 | hg1
      · subst hg1
        rcases List.mem_append.mp hx with hx1 | hx1
        · exact hgs g0 (by simp) x hx1
        · rw [List.mem_singleton.mp hx1]
          exact hq
      · exact hgs g (by simp [hg1]) x hx
    · rw [if_neg h] at hg
      rcases List.mem_cons.mp hg with hg1 | hg1
      · subst hg1
        exact hgs g (by simp) x hx
      · exact ih (fun g2 hg2 => hgs g2 (by simp [hg2])) hq g hg1 x hx

theorem groupPass_chunks_all (Q : GroupChunk → Prop) :
    ∀ (l : List NormChunk) (gs : List DocGroup),
      (∀ g ∈ gs, ∀ x ∈ g.chunks, Q x) →
      (∀ c ∈ l, Q (mkGroupChunk c)) →
      ∀ g ∈ l.foldl (fun groups c => insertChunk (docKey c) (mkGroupChunk c) c.metadata groups) gs,
        ∀ x ∈ g.chunks, Q x := by
  intro l
  induction l with
  | nil => intro gs hgs _ g hg; exact hgs g hg
  | cons c cs ih =>
    intro gs hgs hl
    rw [List.foldl_cons]
    exact ih _
      (insertChunk_chunks_all Q _ _ _ gs hgs (hl c (by simp)))
      (fun c2 hc2 => hl c2 (by simp [hc2]))

theorem group_chunks_all (Q : GroupChunk → Prop) (l : List NormChunk)
    (hl : ∀ c ∈ l, Q (mkGroupChunk c)) :
    ∀ g ∈ group_chunks_by_document l, ∀ x ∈ g.chunks, Q x := by
  intro g hg x hx
  rw [group_chunks_by_document] at hg
  obtain ⟨g0, hg0, hmap⟩ := List.mem_map.mp hg
  subst hmap
  have hx0 : x ∈ g0.chunks := by
    have hperm := List.perm_insertionSort
      (fun a b : GroupChunk => b.score ≤ a.score) g0.chunks
    exact hperm.mem_iff.mp hx
  exact groupPass_chunks_all Q l [] (by simp) hl g0 hg0 x hx0

theorem pinecone_query_filter_docid (st : List IndexEntry) (sim : String → ℚ)
    (k : Nat) (d : String) :
    ∀ m ∈ pinecone_query st sim k (some d), m.metadata.document_id = some d := by
  intro m hm
  rw [pinecone_query] at hm
  have hm2 := List.mem_of_mem_take hm
  have hm3 := (List.perm_insertionSort _ _).mem_iff.mp hm2
  obtain ⟨e, he, hme⟩ := List.mem_map.mp hm3
  subst hme
  have hf := List.of_mem_filter he
  simpa using hf

theorem surviving_chunks_from_ms (threshold : ℚ) (ms : List RawMatch) :
    ∀ c ∈ surviving_chunks threshold ms, ∃ m ∈ ms, c = normalizeChunk m := by
  intro c hc
  rw [surviving_chunks] at hc
  have hmem : c ∈ ms.map normalizeChunk := by
    by_cases hf : ((ms.map normalizeChunk).filter (fun c => threshold ≤ c.score)).isEmpty
    · rw [if_pos hf] at hc
      have := List.mem_of_mem_take hc
      exact (List.perm_insertionSort _ _).mem_iff.mp this
    · rw [if_neg hf] at hc
      exact List.mem_of_mem_filter hc
  obtain ⟨m, hm, hmc⟩ := List.mem_map.mp hmem
  exact ⟨m, hm, hmc.symm⟩

theorem selectContextChunks_sub (d : String) :
    ∀ (gs : List DocGroup), ∀ x ∈ selectContextChunks d gs, ∃ g ∈ gs, x ∈ g.chunks := by
  intro gs
  induction gs with
  | nil => intro x hx; simp [selectContextChunks] at hx
  | cons g0 gs ih =>
    intro x hx
    rw [selectContextChunks] at hx
    by_cases h : pyInStr d g0.document_id = true
    · rw [if_pos h] at hx
      exact ⟨g0, by simp, hx⟩
    · rw [if_neg h] at hx
      obtain ⟨g, hg, hxg⟩ := ih x hx
      exact ⟨g, by simp [hg], hxg⟩

theorem scoped_context_docid (st : List IndexEntry) (sim : String → ℚ) (threshold : ℚ)
    (d q : String) (k : Nat) :
    ∀ c ∈ (get_document_context st sim threshold d q k).context_chunks,
      c.metadata.document_id = some d := by
  intro c hc
  simp only [get_document_context] at hc
  split at hc
  · simp at hc
  · have hcc : c ∈ selectContextChunks d
        (search_documents q threshold (pinecone_query st sim k (some d))).results := by
      simpa using hc
    obtain ⟨g, hg, hcg⟩ := selectContextChunks_sub d _ c hcc
    have hg2 : g ∈ group_chunks_by_document
        (surviving_chunks threshold (pinecone_query st sim k (some d))) := hg
    refine group_chunks_all (fun x => x.metadata.document_id = some d) _ ?_ g hg2 c hcg
    intro cn hcn
    obtain ⟨m, hm, hmc⟩ := surviving_chunks_from_ms threshold _ cn hcn
    have hmd := pinecone_query_filter_docid st sim k d m hm
    show cn.metadata.document_id = some d
    rw [hmc]
    exact hmd

end DocRag

open DocRag

/-- C6 counterexample.  The one-character text `" "` satisfies
`len(text) ≤ chunk_size` for the default configuration `chunk_size=1000`,
yet `RAGSystem._split_text` yields no chunk at all (the splitter strips
whitespace and drops empty documents), not exactly one chunk equal to the
input as the claim states. -/
theorem C6_counterexample :
    (" ").length ≤ 1000 ∧ rag_split_text 1000 200 " " = [] := by
  constructor
  · decide
  · decide

/-- C6 (amended): for every text with `len(text) ≤ chunk_size` (and
`chunk_size > 1`), chunking yields exactly one chunk holding the input
stripped of leading and trailing whitespace when that is non-empty — so
the chunk equals the input precisely when the input has no surrounding
whitespace — and yields the empty sequence otherwise; in particular, empty
input yields an empty sequence with no chunk emitted. -/
theorem C6_small_text_single_chunk (csize coverlap : Nat) (text : String)
    (hc : 1 < csize) (hlen : text.length ≤ csize) :
    rag_split_text csize coverlap text =
      if (pyStrip text.data).isEmpty then []
      else [(0, String.mk (pyStrip text.data))] := by
  rw [rag_split_text, splitText_small csize coverlap hc text.data hlen]
  by_cases h : (pyStrip text.data).isEmpty
  · simp [h]
  · simp [h, List.enum]

/-- C6 witness: the amended statement evaluated at the default
configuration on a concrete whitespace-padded input. -/
theorem C6_small_text_single_chunk_witness :
    rag_split_text 1000 200 " hi " = [(0, "hi")] := by
  rw [C6_small_text_single_chunk 1000 200 " hi " (by decide) (by decide)]
  decide

/-- C7 counterexample.  With `chunk_overlap` equal to `chunk_size`
(1000, 1000) the constructor guard does not fire — only a strictly larger
overlap is rejected — so construction succeeds and chunking is attempted
and returns chunks. -/
theorem C7_counterexample :
    text_splitter_init 1000 1000 = Except.ok (1000, 1000) ∧
      splitText 1000 1000 "hello".data = ["hello".data] := by
  constructor
  · rfl
  · decide

/-- C7 (amended): constructing the splitter is rejected as a configuration
error exactly when `overlap > chunk_size`; an overlap equal to
`chunk_size` is accepted at construction time, and chunking proceeds with
such a configuration. -/
theorem C7_overlap_guard (cs ov : Nat) :
    (∃ r, text_splitter_init cs ov = Except.ok r) ↔ ov ≤ cs := by
  constructor
  · intro ⟨r, hr⟩
    by_contra hlt
    rw [text_splitter_init, if_pos (by omega)] at hr
    exact absurd hr (by simp)
  · intro hle
    exact ⟨(cs, ov), by rw [text_splitter_init, if_neg (by omega)]⟩

/-- C1: when the vector index returned at least one candidate but every
candidate scores below the similarity threshold, `search_documents` falls
back to exactly the top 3 candidates by raw score (a fixed count), its
`total_results` is `min 3 n`, and the result groups are never empty. -/
theorem C1_threshold_fallback (q : String) (threshold : ℚ) (ms : List RawMatch)
    (hne : ms ≠ [])
    (hbelow : ∀ m ∈ ms, (normalizeChunk m).score < threshold) :
    surviving_chunks threshold ms = (sortByScoreDesc (ms.map normalizeChunk)).take 3 ∧
    (search_documents q threshold ms).total_results = min 3 ms.length ∧
    (search_documents q threshold ms).results ≠ [] := by
  have hfil : (ms.map normalizeChunk).filter (fun c => threshold ≤ c.score) = [] := by
    rw [List.filter_eq_nil_iff]
    intro c hc
    obtain ⟨m, hm, hmc⟩ := List.mem_map.mp hc
    subst hmc
    simpa using not_le.mpr (hbelow m hm)
  have hsurv : surviving_chunks threshold ms =
      (sortByScoreDesc (ms.map normalizeChunk)).take 3 := by
    rw [surviving_chunks, hfil]
    simp
  have hslen : (sortByScoreDesc (ms.map normalizeChunk)).length = ms.length := by
    calc (sortByScoreDesc (ms.map normalizeChunk)).length
        = (ms.map normalizeChunk).length := (List.perm_insertionSort _ _).length_eq
      _ = ms.length := List.length_map _ _
  refine ⟨hsurv, ?_, ?_⟩
  · show (surviving_chunks threshold ms).length = min 3 ms.length
    rw [hsurv, List.length_take, hslen]
  · show group_chunks_by_document (surviving_chunks threshold ms) ≠ []
    apply group_chunks_by_document_ne_nil
    intro hnil
    rw [hsurv] at hnil
    have ht := congrArg List.length hnil
    rw [List.length_take, hslen] at ht
    have hms : 0 < ms.length := List.length_pos.mpr hne
    simp only [List.length_nil] at ht
    omega

/-- C1 witness: a single below-threshold candidate (score 0 against
threshold 1) still yields a non-empty result set built from the top-3
fallback. -/
theorem C1_threshold_fallback_witness :
    (search_documents "q" 1 c1DemoMs).results ≠ [] ∧
    surviving_chunks 1 c1DemoMs = (sortByScoreDesc (c1DemoMs.map normalizeChunk)).take 3 := by
  have h := C1_threshold_fallback "q" 1 c1DemoMs (by decide) (by decide)
  exact ⟨h.2.2, h.1⟩

/-- C2: evaluation of the code at the failing input.  Updating document
`d` (indexed with two chunks) to a one-chunk text leaves the old chunk
`d_chunk_1` with its pre-update text in the index — the internal delete
raises and removes nothing, and the upsert only overwrites `d_chunk_0` —
and a subsequent search scoped to `d` still returns the stale chunk. -/
theorem C2_stale_chunk_after_update :
    (update_document_index 1000 200 true staleState "d" "new content").1 =
      [{ id := "d_chunk_0",
         metadata := { document_id := some "d", chunk_index := some 0,
                       chunk_count := some 1, text := some "new content" } },
       { id := "d_chunk_1",
         metadata := { document_id := some "d", chunk_index := some 1,
                       chunk_count := some 2, text := some "OLD BETA" } }] ∧
    (∃ g ∈ (search_documents "q" 1
        (pinecone_query (update_document_index 1000 200 true staleState "d" "new content").1
          (fun _ => 2) 1000 (some "d"))).results,
      ∃ c ∈ g.chunks, c.chunk_id = "d_chunk_1" ∧ c.content = "OLD BETA") := by
  constructor
  · decide
  · decide

/-- C3: evaluation of the code at the failing input.  With two indexed
chunks of document `d` present, `delete_document_index("d")` reports
`deleted_chunks = 0` and leaves the index untouched, while the number of
indexed chunks of `d` before the call is 2. -/
theorem C3_delete_reports_zero :
    (staleState.filter (fun e => e.metadata.document_id == some "d")).length = 2 ∧
    (delete_document_index staleState "d").2.lookup "deleted_chunks" = some (PyVal.nat 0) ∧
    (delete_document_index staleState "d").1 = staleState := by
  refine ⟨by decide, by decide, by decide⟩

/-- C4 counterexample: a call whose upsert fails (upsert_vectors returns
False, nothing is written) still reports `success=True`, carries no
`indexed_count` key at all, and leaves the index empty — there is no
`PartialIndexingError`-class result. -/
theorem C4_counterexample :
    (index_document 1000 200 false [] "d" "hello").2.lookup "indexed_count" = none ∧
    (index_document 1000 200 false [] "d" "hello").2.lookup "success" =
      some (PyVal.bool true) ∧
    (index_document 1000 200 false [] "d" "hello").1 = [] := by
  refine ⟨by decide, by decide, by decide⟩

/-- C4 (amended): `index_document` reports `chunk_count` but never an
`indexed_count`, and the Boolean outcome of the batch upsert is not
surfaced — the payload reports success whether or not the upsert wrote
anything. -/
theorem C4_index_document_reporting (csize coverlap : Nat) (ok : Bool)
    (st : List IndexEntry) (d text : String) :
    (index_document csize coverlap ok st d text).2.lookup "indexed_count" = none ∧
    (index_document csize coverlap ok st d text).2.lookup "success" =
      some (PyVal.bool true) ∧
    (index_document csize coverlap ok st d text).2.lookup "chunk_count" =
      some (PyVal.nat (splitText csize coverlap text.data).length) := by
  refine ⟨rfl, rfl, ?_⟩
  show some (PyVal.nat (((splitText csize coverlap text.data).map String.mk).length)) = _
  rw [List.length_map]

/-- C5: `RAGSystem.hybrid_search` never produces a ranking.
`PineconeService` defines no `hybrid_search` method (only the unused
`OpenSearchService` backend does), so the call raises `AttributeError`
and every invocation — for every query, `top_k` and weight, including
`weight = 1.0` and `weight = 0.0` — returns the error payload instead of
a result shaped like plain `search`. -/
theorem C5_hybrid_search_always_errors (threshold : ℚ) (q : String) (k : Nat) (w : ℚ) :
    hybrid_search threshold q k w =
      [("error", PyVal.str
        "AttributeError: PineconeService object has no attribute hybrid_search")] ∧
    (hybrid_search threshold q k w).lookup "success" = none :=
  ⟨rfl, rfl⟩

/-- C8: within every document group produced by
`_group_chunks_by_document`, the chunks are sorted by descending score. -/
theorem C8_group_chunks_sorted (chunks : List NormChunk) :
    ∀ g ∈ group_chunks_by_document chunks,
      List.Sorted (fun a b : GroupChunk => b.score ≤ a.score) g.chunks := by
  intro g hg
  rw [group_chunks_by_document] at hg
  obtain ⟨g0, hg0, hmap⟩ := List.mem_map.mp hg
  subst hmap
  show List.Sorted (fun a b : GroupChunk => b.score ≤ a.score) (sortChunksDesc g0.chunks)
  haveI : IsTotal GroupChunk (fun a b => b.score ≤ a.score) :=
    ⟨fun a b => le_total b.score a.score⟩
  haveI : IsTrans GroupChunk (fun a b => b.score ≤ a.score) :=
    ⟨fun a b c h1 h2 => le_trans h2 h1⟩
  exact List.sorted_insertionSort _ _

/-- C8 witness: the grouping of two same-document chunks given in
ascending score order yields a group sorted descending. -/
theorem C8_group_chunks_sorted_witness :
    List.Sorted (fun a b : GroupChunk => b.score ≤ a.score)
      ((group_chunks_by_document c8DemoChunks).headD
        { document_id := "", metadata := {}, chunks := [] }).chunks :=
  C8_group_chunks_sorted c8DemoChunks _ (by decide)

/-- C9: the assembled context is the rank-order concatenation of the hit
contents with the fixed `"\n\n"` separator; when that concatenation
exceeds `max_context_length`, the result is its first
`max_context_length` characters with the `"..."` marker appended (total
length `max_context_length + 3`), and otherwise it is returned uncut. -/
theorem C9_context_truncation (results : List DocGroup) (maxLen : Nat) :
    ((pyJoinStr "\n\n" (collect_context_chunks results)).length ≤ maxLen →
      assemble_context maxLen (collect_context_chunks results) =
        pyJoinStr "\n\n" (collect_context_chunks results)) ∧
    (maxLen < (pyJoinStr "\n\n" (collect_context_chunks results)).length →
      assemble_context maxLen (collect_context_chunks results) =
        pySlice (pyJoinStr "\n\n" (collect_context_chunks results)) maxLen ++ "..." ∧
      (assemble_context maxLen (collect_context_chunks results)).length = maxLen + 3) := by
  constructor
  · intro h
    simp only [assemble_context]
    rw [if_neg (by omega)]
  · intro h
    have he : assemble_context maxLen (collect_context_chunks results) =
        pySlice (pyJoinStr "\n\n" (collect_context_chunks results)) maxLen ++ "..." := by
      simp only [assemble_context]
      rw [if_pos h]
    refine ⟨he, ?_⟩
    rw [he, String.length_append]
    have hsl : (pySlice (pyJoinStr "\n\n" (collect_context_chunks results)) maxLen).length =
        min maxLen (pyJoinStr "\n\n" (collect_context_chunks results)).length := by
      show ((pyJoinStr "\n\n" (collect_context_chunks results)).data.take maxLen).length = _
      rw [List.length_take]
      rfl
    rw [hsl]
    have : min maxLen (pyJoinStr "\n\n" (collect_context_chunks results)).length = maxLen := by
      omega
    rw [this]
    rfl

/-- C9 witness: a two-chunk group whose joined context has 8 characters,
assembled under a budget of 3, yields the truncated string with the
marker. -/
theorem C9_context_truncation_witness :
    assemble_context 3 (collect_context_chunks c9DemoGroups) = "abc..." ∧
    (assemble_context 3 (collect_context_chunks c9DemoGroups)).length = 3 + 3 := by
  have h := (C9_context_truncation c9DemoGroups 3).2 (by decide)
  refine ⟨?_, h.2⟩
  rw [h.1]
  decide

/-- C10 counterexample: the claim is false.  Because
`get_document_context` scopes its query with the equality filter
`{"document_id": document_id}`, every candidate chunk already carries the
requested document id, so no state, scoring, pair of documents with one
id a proper substring of the other, or query can make the returned
`context_chunks` belong to the other document. -/
theorem C10_counterexample : ¬ Claim10 := by
  rw [Claim10]
  rintro ⟨st, sim, t, d1, d2, q, k, hne, hsub, h1, h2, c, hc, hcd⟩
  have hd1 := scoped_context_docid st sim t d1 q k c hc
  rw [hd1] at hcd
  exact hne (Option.some.inj hcd)

/-- C10 (amended): `get_document_context` does pick the first group whose
id contains `document_id` as a substring, but since its search is scoped
by an equality filter on the `document_id` metadata, every returned
context chunk belongs to the requested document; the substring match
cannot select another document's chunks through this call path. -/
theorem C10_scoped_context_stays_in_document (st : List IndexEntry) (sim : String → ℚ)
    (threshold : ℚ) (d q : String) (k : Nat) :
    ∀ c ∈ (get_document_context st sim threshold d q k).context_chunks,
      c.metadata.document_id = some d :=
  scoped_context_docid st sim threshold d q k

/-- C10 witness: the amended statement evaluated on a concrete one-entry
index whose single context chunk carries the requested id. -/
theorem C10_scoped_context_stays_in_document_witness :
    ((get_document_context c10DemoState (fun _ => 1) 1 "doc1" "q" 5).context_chunks.headD
      { chunk_id := "", content := "", score := 0, metadata := {} }).metadata.document_id =
      some "doc1" :=
  C10_scoped_context_stays_in_document c10DemoState (fun _ => 1) 1 "doc1" "q" 5 _
    (by decide)

/-- C7 witness: the amended statement evaluated at the equal
configuration (1000, 1000), whose construction succeeds. -/
theorem C7_overlap_guard_witness :
    ∃ r, text_splitter_init 1000 1000 = Except.ok r :=
  (C7_overlap_guard 1000 1000).mpr (by decide)
